import Mathlib

/-!
Shallow embedding of the replication orchestrator in
src/replicator/src/lib.rs (crate hyperspace-replicator).

Public keys, discovery keys and remote identities are 32-byte opaque
identifiers in the source; they are modelled as natural numbers.  The
feed registry (a HashMap protected by a mutex) is modelled as an
association list with HashMap insert semantics; the subscriber hub is
the list of per-subscriber delivery queues.  The per-connection event
loop of Replicator::run_peer is modelled as a step function over the
merged event stream, with the panics that unwrap can raise made
explicit in the step result.
-/

/-- Public key of a feed (Key = [u8; 32] in the source). -/
abbrev Key := Nat

/-- Discovery key ([u8; 32] in the source). -/
abbrev DKey := Nat

/-- Remote peer identity (RemotePublicKey = [u8; 32] in the source). -/
abbrev RemotePublicKey := Nat

/-- Modelled from the spec: hypercore_protocol::discovery_key (re-exported
by lib.rs but defined outside src/) is a deterministic one-way derivation
from the public key, treated by the spec as a unique per-feed identifier
(distinct public keys yield distinct discovery keys).  Modelled as an
injective function on the opaque identifier space. -/
def discovery_key (pk : Key) : DKey := pk + 1

/-- A per-remote-peer replication sub-session held by a PeeredFeed.
Modelled from the spec: peer.rs is not under src/; the spec only says a
Peer Feed Session owns a mapping from remote identity to an active
per-peer sub-session, each of which eventually finishes. -/
structure Peer where
  remote : RemotePublicKey
  finished : Bool
deriving DecidableEq, Repr

/-- Modelled from the spec: PeeredFeed (peer.rs, not under src/) wraps the
shared feed reference (represented by the feed's public key, the only
attribute the orchestrator reads) and owns the per-remote-peer
sub-sessions. -/
structure PeeredFeed where
  feedKey : Key
  peers : List Peer
deriving DecidableEq, Repr

/-- Modelled from the spec: PeeredFeed::new(feed) constructs a session for
the feed with no peer sub-sessions yet. -/
def PeeredFeed.new (feedKey : Key) : PeeredFeed :=
  { feedKey := feedKey, peers := [] }

/-- Modelled from the spec: PeeredFeed::add_peer(remote, channel) adds an
active per-peer replication sub-session for the remote identity. -/
def PeeredFeed.add_peer (pf : PeeredFeed) (rpk : RemotePublicKey) : PeeredFeed :=
  { pf with peers := pf.peers ++ [{ remote := rpk, finished := false }] }

/-- Modelled from the spec: PeeredFeed::join_all completes when all peer
sub-sessions for this feed have finished. -/
def PeeredFeed.join_all_complete (pf : PeeredFeed) : Bool :=
  pf.peers.all (fun p => p.finished)

/-- HashMap::insert semantics on the association-list model of the feed
registry: replace the value stored under an existing key, otherwise add a
new entry. -/
def mapInsert (m : List (DKey × PeeredFeed)) (k : DKey) (v : PeeredFeed) :
    List (DKey × PeeredFeed) :=
  match m with
  | [] => [(k, v)]
  | (k', v') :: rest =>
      if k' = k then (k, v) :: rest else (k', v') :: mapInsert rest k v

/-- HashMap::get / get_mut on the association-list model. -/
def mapLookup (m : List (DKey × PeeredFeed)) (k : DKey) : Option PeeredFeed :=
  match m with
  | [] => none
  | (k', v') :: rest => if k' = k then some v' else mapLookup rest k

/-- In-place update of one entry, as through HashMap::get_mut. -/
def mapAddPeer (m : List (DKey × PeeredFeed)) (k : DKey) (rpk : RemotePublicKey) :
    List (DKey × PeeredFeed) :=
  m.map (fun p => if p.1 = k then (p.1, p.2.add_peer rpk) else p)

/-- ReplicatorEvent from lib.rs: Feed(DiscoveryKey) is broadcast on
add_feed, DiscoveryKey(DiscoveryKey) on an unknown-feed request. -/
inductive ReplicatorEvent where
  | Feed (dk : DKey)
  | DiscoveryKey (dk : DKey)
deriving DecidableEq, Repr

/-- The Replicator's shared state: the feed registry, the subscriber hub
(each subscriber is its unbounded delivery queue, in delivery order), and
the spawned connection task handles (represented by task identifiers). -/
structure Replicator where
  feeds : List (DKey × PeeredFeed)
  subscribers : List (List ReplicatorEvent)
  tasks : List Nat
deriving DecidableEq, Repr

/-- Replicator::new. -/
def Replicator.new : Replicator :=
  { feeds := [], subscribers := [], tasks := [] }

/-- Replicator::emit: deliver a copy of the event to every
currently-registered subscriber queue (send on an unbounded channel;
failures are ignored and not modelled). -/
def Replicator.emit (r : Replicator) (e : ReplicatorEvent) : Replicator :=
  { r with subscribers := r.subscribers.map (fun q => q ++ [e]) }

/-- Replicator::add_feed: read the feed's public key, derive the discovery
key, construct a PeeredFeed, insert it into the registry, and emit
Feed(dkey) to the hub. -/
def Replicator.add_feed (r : Replicator) (feedKey : Key) : Replicator :=
  let dkey := discovery_key feedKey
  let peered_feed := PeeredFeed.new feedKey
  let r' := { r with feeds := mapInsert r.feeds dkey peered_feed }
  r'.emit (ReplicatorEvent.Feed dkey)

/-- Replicator::subscribe: register a new empty delivery queue and return
its index (the consumer side). -/
def Replicator.subscribe (r : Replicator) : Replicator × Nat :=
  ({ r with subscribers := r.subscribers ++ [[]] }, r.subscribers.length)

/-- What Replicator::join_all awaits: feed-level joins versus
connection-task joins. -/
inductive AwaitTarget where
  | feedJoin (dk : DKey)
  | taskJoin (tid : Nat)
deriving DecidableEq, Repr

/-- Whether an await target is a connection-task join. -/
def AwaitTarget.isTaskJoin : AwaitTarget → Bool
  | AwaitTarget.taskJoin _ => true
  | _ => false

/-- Replicator::join_all awaits PeeredFeed::join_all for every registry
entry, and nothing else (the tasks vector is untouched). -/
def Replicator.join_all_awaits (r : Replicator) : List AwaitTarget :=
  r.feeds.map (fun p => AwaitTarget.feedJoin p.1)

/-- Completion condition of Replicator::join_all: the join_all of every
registered feed's PeeredFeed has completed. -/
def Replicator.join_all_complete (r : Replicator) : Bool :=
  r.feeds.all (fun p => p.2.join_all_complete)

/-- hypercore_protocol::Event as consumed by run_peer.  A Channel carries
a handle whose only attribute read here is its discovery key. -/
inductive ProtocolEvent where
  | Handshake (key : RemotePublicKey)
  | Channel (dk : DKey)
  | DiscoveryKey (dk : DKey)
  | Close (dk : DKey)
deriving DecidableEq, Repr

/-- The merged per-session event type from lib.rs: wire-protocol events,
hub broadcasts, and wire decode errors (anyhow::Error modelled as a
numeric code). -/
inductive Event where
  | Protocol (e : ProtocolEvent)
  | Replicator (e : ReplicatorEvent)
  | Error (err : Nat)
deriving DecidableEq, Repr

/-- How one loop iteration of run_peer ends: keep looping, return Err
after logging (the decode-error path), or panic on an unwrap. -/
inductive StepResult where
  | Continue
  | ErrReturn (err : Nat)
  | Panicked
deriving DecidableEq, Repr

/-- Per-connection session state: the optional remote identity (None
until handshake) and the shared Replicator (this). -/
structure SessionState where
  remote_public_key : Option RemotePublicKey
  repl : Replicator
deriving DecidableEq, Repr

/-- Observable outcome of processing one event: the successor state, the
keys passed to proto_command.open (in order), the add_peer calls
(remote identity, discovery key), and how the iteration ended. -/
structure StepOutput where
  state : SessionState
  opens : List Key
  addPeers : List (RemotePublicKey × DKey)
  result : StepResult
deriving DecidableEq, Repr

/-- The handshake arm's loop over feeds.values(): open each feed's public
key and unwrap the result; a failed open panics immediately, abandoning
the remaining feeds.  openOk says whether the transport accepts an open
for a given key. -/
def openLoop (openOk : Key → Bool) : List (DKey × PeeredFeed) → List Key × StepResult
  | [] => ([], StepResult.Continue)
  | p :: rest =>
      if openOk p.2.feedKey then
        let r := openLoop openOk rest
        (p.2.feedKey :: r.1, r.2)
      else ([p.2.feedKey], StepResult.Panicked)

/-- One iteration of the run_peer event loop, transcribed arm by arm from
the match in lib.rs lines 132-164. -/
def step (openOk : Key → Bool) (s : SessionState) (ev : Event) : StepOutput :=
  match ev with
  | Event.Protocol (ProtocolEvent.Handshake key) =>
      let s' := { s with remote_public_key := some key }
      let r := openLoop openOk s.repl.feeds
      { state := s', opens := r.1, addPeers := [], result := r.2 }
  | Event.Protocol (ProtocolEvent.Channel dk) =>
      match mapLookup s.repl.feeds dk with
      | some _ =>
          match s.remote_public_key with
          | some rpk =>
              { state := { s with repl :=
                  { s.repl with feeds := mapAddPeer s.repl.feeds dk rpk } },
                opens := [], addPeers := [(rpk, dk)],
                result := StepResult.Continue }
          | none =>
              { state := s, opens := [], addPeers := [],
                result := StepResult.Panicked }
      | none =>
          { state := s, opens := [], addPeers := [],
            result := StepResult.Continue }
  | Event.Protocol (ProtocolEvent.DiscoveryKey dk) =>
      { state := { s with repl := s.repl.emit (ReplicatorEvent.DiscoveryKey dk) },
        opens := [], addPeers := [], result := StepResult.Continue }
  | Event.Error err =>
      { state := s, opens := [], addPeers := [],
        result := StepResult.ErrReturn err }
  | Event.Replicator (ReplicatorEvent.Feed key) =>
      match s.remote_public_key with
      | some _ =>
          if openOk key then
            { state := s, opens := [key], addPeers := [],
              result := StepResult.Continue }
          else
            { state := s, opens := [key], addPeers := [],
              result := StepResult.Panicked }
      | none =>
          { state := s, opens := [], addPeers := [],
            result := StepResult.Continue }
  | _ =>
      { state := s, opens := [], addPeers := [],
        result := StepResult.Continue }

/-- Accumulated outcome of running the session loop over a finite prefix
of the merged event stream. -/
structure RunOutput where
  state : SessionState
  opens : List Key
  addPeers : List (RemotePublicKey × DKey)
  result : StepResult
deriving DecidableEq, Repr

/-- The run_peer while-let loop over a finite list of merged events: the
loop continues until the stream ends (Ok(())), an Err is returned, or a
panic occurs. -/
def run (openOk : Key → Bool) (s : SessionState) : List Event → RunOutput
  | [] => { state := s, opens := [], addPeers := [], result := StepResult.Continue }
  | ev :: rest =>
      let out := step openOk s ev
      match out.result with
      | StepResult.Continue =>
          let r := run openOk out.state rest
          { state := r.state, opens := out.opens ++ r.opens,
            addPeers := out.addPeers ++ r.addPeers, result := r.result }
      | res =>
          { state := out.state, opens := out.opens,
            addPeers := out.addPeers, result := res }

/-- Atomic lock and await actions of one match arm of the run_peer loop,
used to model the critical-section structure of the source.  acquireFeeds
and releaseFeeds delimit the lifetime of the guard returned by
this.feeds.lock(); openAwait and addPeerAwait are the awaited network
round-trips. -/
inductive LockAction where
  | acquireFeeds
  | releaseFeeds
  | acquireFeedMutex (pk : Key)
  | releaseFeedMutex (pk : Key)
  | openAwait (k : Key)
  | addPeerAwait (dk : DKey)
deriving DecidableEq, Repr

/-- Whether an action is an awaited network round-trip (an open command
or an add_peer call). -/
def LockAction.isNetAwait : LockAction → Bool
  | LockAction.openAwait _ => true
  | LockAction.addPeerAwait _ => true
  | _ => false

/-- Body of the for loop in the Handshake arm (lines 137-141): each
iteration locks the feed mutex, awaits the open command while that guard
is live, and drops the guard at the end of the iteration. -/
def handshakeLoopActions : List (DKey × PeeredFeed) → List LockAction
  | [] => []
  | p :: rest =>
      LockAction.acquireFeedMutex p.2.feedKey :: LockAction.openAwait p.2.feedKey ::
        LockAction.releaseFeedMutex p.2.feedKey :: handshakeLoopActions rest

/-- Lock/await trace of the Handshake arm (lines 136-141): the guard of
this.feeds.lock() is taken before the loop and dropped only when the arm's
scope ends, after the last open has been awaited. -/
def handshakeActions (feeds : List (DKey × PeeredFeed)) : List LockAction :=
  LockAction.acquireFeeds :: handshakeLoopActions feeds ++ [LockAction.releaseFeeds]

/-- Lock/await trace of the Channel arm (lines 143-150): the guard of
this.feeds.lock() is live around the lookup and, when the discovery key is
registered, around the awaited add_peer call. -/
def channelActions (feeds : List (DKey × PeeredFeed)) (dk : DKey) : List LockAction :=
  LockAction.acquireFeeds ::
    (match mapLookup feeds dk with
     | some _ => [LockAction.addPeerAwait dk]
     | none => []) ++ [LockAction.releaseFeeds]

/-- Scanner: given the current nesting depth of the feeds lock, does some
network await occur while the lock is held? -/
def heldAcrossAwaitFrom : Nat → List LockAction → Bool
  | _, [] => false
  | depth, a :: rest =>
      match a with
      | LockAction.acquireFeeds => heldAcrossAwaitFrom (depth + 1) rest
      | LockAction.releaseFeeds => heldAcrossAwaitFrom (depth - 1) rest
      | a' => (a'.isNetAwait && decide (0 < depth)) || heldAcrossAwaitFrom depth rest

/-- Whether a trace awaits any network round-trip while the feeds lock is
held. -/
def feedsLockHeldAcrossAwait (tr : List LockAction) : Bool :=
  heldAcrossAwaitFrom 0 tr

theorem openLoop_all_ok (openOk : Key → Bool) (feeds : List (DKey × PeeredFeed))
    (h : ∀ p ∈ feeds, openOk p.2.feedKey = true) :
    openLoop openOk feeds = (feeds.map (fun p => p.2.feedKey), StepResult.Continue) := by
  induction feeds with
  | nil => simp [openLoop]
  | cons p rest ih =>
      have hp := h p (List.mem_cons_self _ _)
      have hr := ih (fun q hq => h q (List.mem_cons_of_mem _ hq))
      simp [openLoop, hp, hr]

theorem openLoop_some_failure (openOk : Key → Bool) (feeds : List (DKey × PeeredFeed))
    (h : ∃ p ∈ feeds, openOk p.2.feedKey = false) :
    (openLoop openOk feeds).2 = StepResult.Panicked := by
  induction feeds with
  | nil => simp at h
  | cons p rest ih =>
      by_cases hp : openOk p.2.feedKey = true
      · have : ∃ q ∈ rest, openOk q.2.feedKey = false := by
          rcases h with ⟨q, hq, hqf⟩
          rcases List.mem_cons.mp hq with hq1 | hq2
          · rw [hq1] at hqf; rw [hp] at hqf; cases hqf
          · exact ⟨q, hq2, hqf⟩
        simp [openLoop, hp, ih this]
      · simp [openLoop, hp]

/-- C1: on Handshake(remote_identity) while no remote identity is stored
(and, as the claim presumes, the transport accepts the opens), the session
stores the remote identity and issues exactly one open command per
registry entry, in registry order, each carrying that entry's feed public
key, then continues. -/
theorem C1_handshake_offers_each_feed_once (openOk : Key → Bool) (s : SessionState)
    (k : RemotePublicKey) (hnone : s.remote_public_key = none)
    (hok : ∀ p ∈ s.repl.feeds, openOk p.2.feedKey = true) :
    (step openOk s (Event.Protocol (ProtocolEvent.Handshake k))).state.remote_public_key
        = some k ∧
    (step openOk s (Event.Protocol (ProtocolEvent.Handshake k))).opens
        = s.repl.feeds.map (fun p => p.2.feedKey) ∧
    (step openOk s (Event.Protocol (ProtocolEvent.Handshake k))).result
        = StepResult.Continue := by
  simp [step, openLoop_all_ok openOk s.repl.feeds hok]

theorem C1_handshake_offers_each_feed_once_witness :
    ((step (fun _ => true) ⟨none, ⟨[(6, PeeredFeed.new 5)], [[]], []⟩⟩
        (Event.Protocol (ProtocolEvent.Handshake 7))).state.remote_public_key = some 7) ∧
    ((step (fun _ => true) ⟨none, ⟨[(6, PeeredFeed.new 5)], [[]], []⟩⟩
        (Event.Protocol (ProtocolEvent.Handshake 7))).opens = [5]) ∧
    ((step (fun _ => true) ⟨none, ⟨[(6, PeeredFeed.new 5)], [[]], []⟩⟩
        (Event.Protocol (ProtocolEvent.Handshake 7))).result = StepResult.Continue) :=
  C1_handshake_offers_each_feed_once (fun _ => true)
    ⟨none, ⟨[(6, PeeredFeed.new 5)], [[]], []⟩⟩ 7 rfl (by decide)

/-- C2: with the remote identity known and feed B (public key 5, so
discovery key 6) registered, a FeedAvailable broadcast makes the session
issue exactly one open — but the key it passes to proto_command.open is
the discovery key from the broadcast, not feed B's public key, and the two
differ.  The handshake arm, by contrast, opens the public key. -/
theorem C2_feed_broadcast_opens_discovery_key_not_public_key :
    (step (fun _ => true)
        ⟨some 7, ⟨[(discovery_key 5, PeeredFeed.new 5)], [[]], []⟩⟩
        (Event.Replicator (ReplicatorEvent.Feed (discovery_key 5)))).opens
      = [discovery_key 5] ∧
    discovery_key 5 ≠ 5 ∧
    (step (fun _ => true)
        ⟨none, ⟨[(discovery_key 5, PeeredFeed.new 5)], [[]], []⟩⟩
        (Event.Protocol (ProtocolEvent.Handshake 7))).opens = [5] := by decide

/-- C3 fails on the code: with one registered feed, the handshake arm
awaits the open command while the feeds lock is held, and the channel arm
awaits add_peer while the feeds lock is held. -/
theorem C3_lock_not_held_counterexample :
    feedsLockHeldAcrossAwait (handshakeActions [(6, PeeredFeed.new 5)]) = true ∧
    feedsLockHeldAcrossAwait (channelActions [(6, PeeredFeed.new 5)] 6) = true := by
  decide

/-- C3 amended: the feeds lock IS held across network awaits: whenever the
registry is non-empty the handshake arm awaits every open under the lock,
and whenever the channel's discovery key is registered the add_peer call
is awaited under the lock; the source releases the guard only at the end
of the match arm. -/
theorem C3_lock_held_across_await (feeds : List (DKey × PeeredFeed)) (dk : DKey)
    (hne : feeds ≠ []) (hfound : (mapLookup feeds dk).isSome = true) :
    feedsLockHeldAcrossAwait (handshakeActions feeds) = true ∧
    feedsLockHeldAcrossAwait (channelActions feeds dk) = true := by
  constructor
  · cases feeds with
    | nil => exact absurd rfl hne
    | cons p rest =>
        simp [handshakeActions, handshakeLoopActions, feedsLockHeldAcrossAwait,
              heldAcrossAwaitFrom, LockAction.isNetAwait]
  · obtain ⟨pf, hpf⟩ := Option.isSome_iff_exists.mp hfound
    simp [channelActions, hpf, feedsLockHeldAcrossAwait,
          heldAcrossAwaitFrom, LockAction.isNetAwait]

theorem C3_lock_held_across_await_witness :
    feedsLockHeldAcrossAwait (handshakeActions [(6, PeeredFeed.new 5)]) = true ∧
    feedsLockHeldAcrossAwait (channelActions [(6, PeeredFeed.new 5)] 6) = true :=
  C3_lock_held_across_await [(6, PeeredFeed.new 5)] 6 (by decide) (by decide)

/-- C4 fails on the code: with one registered feed whose open command
fails, the handshake arm ends in a panic (the unwrap), which is not the
handling given to a wire decode error (error log and Err return). -/
theorem C4_open_failure_not_like_decode_error_counterexample :
    (step (fun _ => false) ⟨none, ⟨[(6, PeeredFeed.new 5)], [], []⟩⟩
        (Event.Protocol (ProtocolEvent.Handshake 7))).result = StepResult.Panicked ∧
    (step (fun _ => false) ⟨none, ⟨[(6, PeeredFeed.new 5)], [], []⟩⟩
        (Event.Error 3)).result = StepResult.ErrReturn 3 ∧
    StepResult.Panicked ≠ StepResult.ErrReturn 3 := by decide

/-- C4 amended: a failed open command is fatal to the owning session with
no retry, but through an unwrap panic, not through the logged Err-return
path used for wire decode errors: whenever some registered feed's open
fails the handshake arm panics, and whenever the remote identity is known
and the broadcast-path open fails that arm panics. -/
theorem C4_open_failure_panics (openOk : Key → Bool) (s : SessionState)
    (k : RemotePublicKey) (dk : DKey) :
    ((∃ p ∈ s.repl.feeds, openOk p.2.feedKey = false) →
      (step openOk s (Event.Protocol (ProtocolEvent.Handshake k))).result
        = StepResult.Panicked) ∧
    (s.remote_public_key = some k → openOk dk = false →
      (step openOk s (Event.Replicator (ReplicatorEvent.Feed dk))).result
        = StepResult.Panicked) := by
  constructor
  · intro h
    simp [step, openLoop_some_failure openOk s.repl.feeds h]
  · intro hk hdk
    simp [step, hk, hdk]

theorem C4_open_failure_panics_witness :
    (step (fun _ => false) ⟨none, ⟨[(6, PeeredFeed.new 5)], [], []⟩⟩
        (Event.Protocol (ProtocolEvent.Handshake 7))).result = StepResult.Panicked ∧
    (step (fun _ => false) ⟨some 7, ⟨[(6, PeeredFeed.new 5)], [], []⟩⟩
        (Event.Replicator (ReplicatorEvent.Feed 6))).result = StepResult.Panicked :=
  ⟨(C4_open_failure_panics (fun _ => false)
      ⟨none, ⟨[(6, PeeredFeed.new 5)], [], []⟩⟩ 7 6).1 (by decide),
   (C4_open_failure_panics (fun _ => false)
      ⟨some 7, ⟨[(6, PeeredFeed.new 5)], [], []⟩⟩ 7 6).2 rfl rfl⟩

/-- C5: a Channel event whose discovery key is absent from the registry is
a complete no-op: the state (remote identity, registry, hub) is unchanged,
no open command is issued, add_peer is not called, and the loop
continues. -/
theorem C5_unknown_channel_silent_noop (openOk : Key → Bool) (s : SessionState)
    (dk : DKey) (h : mapLookup s.repl.feeds dk = none) :
    step openOk s (Event.Protocol (ProtocolEvent.Channel dk)) =
      { state := s, opens := [], addPeers := [], result := StepResult.Continue } := by
  simp [step, h]

theorem C5_unknown_channel_silent_noop_witness :
    step (fun _ => true) ⟨some 7, ⟨[(6, PeeredFeed.new 5)], [], []⟩⟩
        (Event.Protocol (ProtocolEvent.Channel 9)) =
      { state := ⟨some 7, ⟨[(6, PeeredFeed.new 5)], [], []⟩⟩, opens := [],
        addPeers := [], result := StepResult.Continue } :=
  C5_unknown_channel_silent_noop (fun _ => true)
    ⟨some 7, ⟨[(6, PeeredFeed.new 5)], [], []⟩⟩ 9 rfl

theorem step_no_handshake_preserves (openOk : Key → Bool) (s : SessionState)
    (ev : Event) (h : s.remote_public_key = none)
    (hne : ∀ k, ev ≠ Event.Protocol (ProtocolEvent.Handshake k)) :
    (step openOk s ev).state.remote_public_key = none ∧
    (step openOk s ev).addPeers = [] := by
  cases ev with
  | Protocol pe =>
      cases pe with
      | Handshake k => exact absurd rfl (hne k)
      | Channel dk =>
          cases hl : mapLookup s.repl.feeds dk with
          | none => simp [step, hl, h]
          | some pf => simp [step, hl, h]
      | DiscoveryKey dk => simp [step, h]
      | Close dk => simp [step, h]
  | Replicator re =>
      cases re with
      | Feed dk => simp [step, h]
      | DiscoveryKey dk => simp [step, h]
  | Error e => simp [step, h]

/-- C6: the session never routes a wire channel to a feed before its
remote identity is known: processing a Channel event with no stored remote
identity calls no add_peer (when the key is registered the unwrap panics
first), and over any finite merged event stream starting without a remote
identity, any add_peer call implies a Handshake event occurs in the
stream. -/
theorem C6_no_route_before_handshake (openOk : Key → Bool) (s : SessionState)
    (evs : List Event) (dk : DKey) :
    (s.remote_public_key = none →
      (step openOk s (Event.Protocol (ProtocolEvent.Channel dk))).addPeers = []) ∧
    (s.remote_public_key = none → (run openOk s evs).addPeers ≠ [] →
      ∃ k, Event.Protocol (ProtocolEvent.Handshake k) ∈ evs) := by
  constructor
  · intro h
    cases hl : mapLookup s.repl.feeds dk with
    | none => simp [step, hl]
    | some pf => simp [step, hl, h]
  · induction evs generalizing s with
    | nil =>
        intro h hne
        simp [run] at hne
    | cons ev rest ih =>
        intro h hne
        by_cases hev : ∃ k, ev = Event.Protocol (ProtocolEvent.Handshake k)
        · obtain ⟨k, rfl⟩ := hev
          exact ⟨k, List.mem_cons_self _ _⟩
        · push_neg at hev
          have hstep := step_no_handshake_preserves openOk s ev h hev
          cases hres : (step openOk s ev).result with
          | Continue =>
              have hrw : (run openOk s (ev :: rest)).addPeers =
                  (step openOk s ev).addPeers ++
                    (run openOk (step openOk s ev).state rest).addPeers := by
                simp [run, hres]
              rw [hrw, hstep.2, List.nil_append] at hne
              obtain ⟨k, hk⟩ := ih (step openOk s ev).state hstep.1 hne
              exact ⟨k, List.mem_cons_of_mem _ hk⟩
          | ErrReturn e =>
              have hrw : (run openOk s (ev :: rest)).addPeers =
                  (step openOk s ev).addPeers := by
                simp [run, hres]
              rw [hrw, hstep.2] at hne
              exact absurd rfl hne
          | Panicked =>
              have hrw : (run openOk s (ev :: rest)).addPeers =
                  (step openOk s ev).addPeers := by
                simp [run, hres]
              rw [hrw, hstep.2] at hne
              exact absurd rfl hne

theorem C6_no_route_before_handshake_witness :
    ((step (fun _ => true) ⟨none, ⟨[(6, PeeredFeed.new 5)], [], []⟩⟩
        (Event.Protocol (ProtocolEvent.Channel 6))).addPeers = []) ∧
    (∃ k, Event.Protocol (ProtocolEvent.Handshake k) ∈
      [Event.Protocol (ProtocolEvent.Handshake 7),
       Event.Protocol (ProtocolEvent.Channel 6)]) :=
  ⟨(C6_no_route_before_handshake (fun _ => true)
      ⟨none, ⟨[(6, PeeredFeed.new 5)], [], []⟩⟩ [] 6).1 rfl,
   (C6_no_route_before_handshake (fun _ => true)
      ⟨none, ⟨[(6, PeeredFeed.new 5)], [], []⟩⟩
      [Event.Protocol (ProtocolEvent.Handshake 7),
       Event.Protocol (ProtocolEvent.Channel 6)] 6).2 rfl (by decide)⟩

theorem mapInsert_map_fst (m : List (DKey × PeeredFeed)) (k : DKey)
    (v : PeeredFeed) :
    (mapInsert m k v).map Prod.fst =
      if k ∈ m.map Prod.fst then m.map Prod.fst else m.map Prod.fst ++ [k] := by
  induction m with
  | nil => simp [mapInsert]
  | cons p rest ih =>
      obtain ⟨k', v'⟩ := p
      by_cases hk : k' = k
      · subst hk
        simp [mapInsert]
      · by_cases hmem : k ∈ rest.map Prod.fst
        · simp [mapInsert, hk, ih, hmem]
        · simp [mapInsert, hk, ih, hmem, Ne.symm hk]

theorem mapInsert_keys_nodup (m : List (DKey × PeeredFeed)) (k : DKey)
    (v : PeeredFeed) (h : (m.map Prod.fst).Nodup) :
    ((mapInsert m k v).map Prod.fst).Nodup := by
  rw [mapInsert_map_fst]
  by_cases hk : k ∈ m.map Prod.fst
  · rw [if_pos hk]
    exact h
  · rw [if_neg hk]
    simp [List.nodup_append, h, hk]

/-- C7: registering two feeds with distinct public keys yields distinct
discovery keys and two distinct registry entries; registering the same
public key twice leaves exactly one registry entry (the later
registration's) while a subscriber receives two FeedAvailable broadcasts;
and add_feed preserves key uniqueness, so the registry holds at most one
PeeredFeed per discovery key. -/
theorem C7_add_feed_registry (pk1 pk2 : Key) (hne : pk1 ≠ pk2) :
    discovery_key pk1 ≠ discovery_key pk2 ∧
    ((Replicator.new.add_feed pk1).add_feed pk2).feeds =
      [(discovery_key pk1, PeeredFeed.new pk1),
       (discovery_key pk2, PeeredFeed.new pk2)] ∧
    ((Replicator.new.add_feed pk1).add_feed pk1).feeds =
      [(discovery_key pk1, PeeredFeed.new pk1)] ∧
    (((Replicator.new.subscribe).1.add_feed pk1).add_feed pk1).subscribers =
      [[ReplicatorEvent.Feed (discovery_key pk1),
        ReplicatorEvent.Feed (discovery_key pk1)]] ∧
    ∀ (r : Replicator) (pk : Key), (r.feeds.map Prod.fst).Nodup →
      (((r.add_feed pk).feeds.map Prod.fst).Nodup) := by
  have hd : discovery_key pk1 ≠ discovery_key pk2 :=
    fun h => hne (Nat.succ_injective h)
  refine ⟨hd, ?_, ?_, ?_, ?_⟩
  · simp [Replicator.add_feed, Replicator.new, Replicator.emit, mapInsert, hd]
  · simp [Replicator.add_feed, Replicator.new, Replicator.emit, mapInsert]
  · simp [Replicator.add_feed, Replicator.new, Replicator.subscribe,
          Replicator.emit, mapInsert]
  · intro r pk hnd
    simp only [Replicator.add_feed, Replicator.emit]
    exact mapInsert_keys_nodup r.feeds (discovery_key pk) (PeeredFeed.new pk) hnd

theorem C7_add_feed_registry_witness :
    discovery_key 5 ≠ discovery_key 8 ∧
    ((Replicator.new.add_feed 5).add_feed 8).feeds =
      [(discovery_key 5, PeeredFeed.new 5), (discovery_key 8, PeeredFeed.new 8)] ∧
    ((Replicator.new.add_feed 5).add_feed 5).feeds =
      [(discovery_key 5, PeeredFeed.new 5)] :=
  ⟨(C7_add_feed_registry 5 8 (by decide)).1,
   (C7_add_feed_registry 5 8 (by decide)).2.1,
   (C7_add_feed_registry 5 8 (by decide)).2.2.1⟩

/-- C8: join_all awaits exactly the PeeredFeed join of every registered
feed: it completes precisely when every registered feed reports all of its
per-peer sub-sessions finished, it completes immediately when no feed is
registered, and none of its await targets is a connection-task join. -/
theorem C8_join_all_feeds_only (r : Replicator) :
    (r.join_all_complete = true ↔
      ∀ p ∈ r.feeds, p.2.peers.all (fun q => q.finished) = true) ∧
    (r.feeds = [] → r.join_all_complete = true) ∧
    (∀ a ∈ r.join_all_awaits, a.isTaskJoin = false) := by
  refine ⟨?_, ?_, ?_⟩
  · simp [Replicator.join_all_complete, PeeredFeed.join_all_complete, List.all_eq_true]
  · intro h
    simp [Replicator.join_all_complete, h]
  · intro a ha
    simp [Replicator.join_all_awaits] at ha
    obtain ⟨dk, pf, hmem, rfl⟩ := ha
    rfl

theorem C8_join_all_feeds_only_witness :
    Replicator.new.join_all_complete = true :=
  (C8_join_all_feeds_only Replicator.new).2.1 rfl

/-- C9: a wire DiscoveryKey event is re-broadcast through the hub as a
ReplicatorEvent.DiscoveryKey value, appended exactly once to every
currently-registered subscriber queue; the registry, tasks and remote
identity are untouched, no open command or add_peer call is made, and the
loop continues. -/
theorem C9_discovery_key_rebroadcast (openOk : Key → Bool) (s : SessionState)
    (dk : DKey) :
    step openOk s (Event.Protocol (ProtocolEvent.DiscoveryKey dk)) =
      { state := { s with repl := { s.repl with
          subscribers := s.repl.subscribers.map
            (fun q => q ++ [ReplicatorEvent.DiscoveryKey dk]) } },
        opens := [], addPeers := [], result := StepResult.Continue } := by
  simp [step, Replicator.emit]

/-- C10: a ReplicatorEvent.DiscoveryKey value arriving on the session's
own hub subscription — including one the session itself just re-broadcast
— falls into the catch-all arm: no open command, no add_peer, no
re-emission, state unchanged, loop continues; so re-broadcasts cannot
loop. -/
theorem C10_hub_discovery_key_noop (openOk : Key → Bool) (s : SessionState)
    (dk : DKey) :
    step openOk s (Event.Replicator (ReplicatorEvent.DiscoveryKey dk)) =
      { state := s, opens := [], addPeers := [], result := StepResult.Continue } := by
  simp [step]
